import Mathlib

/-!
Verification development for `build_static.py` of the OpenHands trajectory
visualizer.  The Python source is shallowly embedded: JSON values become an
inductive type, events become records with optional `source` and `timestamp`
string fields, filesystem modification times become integers, and ISO-8601
timestamp parsing (`datetime.fromisoformat`) is an uninterpreted parameter
`fromiso : String → Option ℚ` returning seconds since an epoch (the code only
ever subtracts two parsed timestamps via `total_seconds()`).

Modelling notes, applied consistently below:
* Python `round(x, 1)` / `round(x)` use round-half-to-even on binary floats;
  the embedding uses exact rationals with round-half-up.  The two differ only
  at exact ties, which none of the verified properties exercise.
* `dict.get` applied to a non-mapping value raises an uncaught
  `AttributeError` in the source; such ill-typed inputs are outside the
  modelled domain and the embedding returns the supplied default there.
* Numeric JSON fields that the source feeds into arithmetic are modelled as
  integers; non-numeric values there would raise uncaught `TypeError`s and
  are likewise outside the modelled domain.
-/

/-- A JSON value, as produced by `json.load`. -/
inductive Json where
  | null : Json
  | bool : Bool → Json
  | num : Int → Json
  | str : String → Json
  | arr : List Json → Json
  | obj : List (String × Json) → Json
  deriving Repr

/-- Key lookup on a JSON object; `none` when the key is absent or the value
is not an object. -/
def Json.objGet : Json → String → Option Json
  | .obj kvs, k => kvs.lookup k
  | _, _ => none

/-- Python `d.get(k, default)` on a JSON object (default returned for a
non-object, which in Python would raise; see modelling notes). -/
def Json.getD (j : Json) (k : String) (d : Json) : Json :=
  (j.objGet k).getD d

/-- Python `k in d` for a JSON object. -/
def Json.hasKey (j : Json) (k : String) : Bool :=
  (j.objGet k).isSome

/-- Python `isinstance(x, dict)`. -/
def Json.isObj : Json → Bool
  | .obj _ => true
  | _ => false

/-- An integer JSON field as fed into Python arithmetic (see modelling
notes: non-numeric values are outside the modelled domain). -/
def Json.asInt : Json → Int
  | .num n => n
  | _ => 0

/-- An event record as loaded from one `event-*.json` file: the `source` tag
and the `timestamp` string, each possibly absent. -/
structure Event where
  source : Option String
  timestamp : Option String
  deriving Repr, DecidableEq

/-- Python truthiness of `d.get("timestamp")`: `None` and `""` are falsy. -/
def truthy : Option String → Bool
  | none => false
  | some s => s != ""

/-- Python `round(x, 1)`: round to one decimal place (half-up on exact
rationals; ties do not arise in the verified properties). -/
def round1 (x : ℚ) : ℚ :=
  (⌊10 * x + 1 / 2⌋ : ℚ) / 10

/-- `s.replace("Z", "+00:00")` on the character list: the pattern is the
single character `Z`, so substring replacement is character replacement. -/
def replaceZChars : List Char → List Char
  | [] => []
  | c :: cs =>
    if c = 'Z' then '+' :: '0' :: '0' :: ':' :: '0' :: '0' :: replaceZChars cs
    else c :: replaceZChars cs

/-- Python `s.replace("Z", "+00:00")`. -/
def replaceZ (s : String) : String :=
  ⟨replaceZChars s.data⟩

/-- `datetime.fromisoformat(s.replace("Z", "+00:00"))`, with `fromiso` the
uninterpreted parser; `none` models a raised `ValueError`/`TypeError`,
caught by every caller. -/
def parseTimestamp (fromiso : String → Option ℚ) (s : String) : Option ℚ :=
  fromiso (replaceZ s)

/-- The contribution of one adjacent pair to `compute_total_conversation_time`
(the body of the `for` loop at lines 30–51 of `build_static.py`). -/
def pairTime (fromiso : String → Option ℚ) (prev curr : Event) : ℚ :=
  if prev.source = some "user" then 0
  else if truthy prev.timestamp && truthy curr.timestamp then
    match parseTimestamp fromiso (prev.timestamp.getD ""),
          parseTimestamp fromiso (curr.timestamp.getD "") with
    | some prevT, some currT =>
        if currT - prevT > 0 then currT - prevT else 0
    | _, _ => 0
  else 0

/-- The accumulation over `for i in range(1, len(events))`: sum of the pair
contributions over consecutive events. -/
def totalTimeGo (fromiso : String → Option ℚ) : List Event → ℚ
  | p :: c :: rest => pairTime fromiso p c + totalTimeGo fromiso (c :: rest)
  | _ => 0

/-- `compute_total_conversation_time` (lines 16–53). -/
def compute_total_conversation_time (fromiso : String → Option ℚ)
    (events : List Event) : ℚ :=
  if events.length < 2 then 0
  else round1 (totalTimeGo fromiso events)

/-- The list of adjacent pairs `(events[i-1], events[i])`, starting from a
given predecessor. -/
def pairsFrom {α : Type} : α → List α → List (α × α)
  | _, [] => []
  | p, c :: rest => (p, c) :: pairsFrom c rest

/-- The list of adjacent pairs `(events[i-1], events[i])` of a list. -/
def adjPairs {α : Type} : List α → List (α × α)
  | [] => []
  | p :: rest => pairsFrom p rest

/-- The specification's per-pair duration: counted only when the earlier
event's source is not `"user"`, both timestamps are present and parseable,
and the duration is strictly positive; zero otherwise. -/
def pairTimeSpec (fromiso : String → Option ℚ) (prev curr : Event) : ℚ :=
  match prev.timestamp, curr.timestamp with
  | some pt, some ct =>
    if prev.source = some "user" then 0
    else
      match parseTimestamp fromiso pt, parseTimestamp fromiso ct with
      | some prevT, some currT =>
          if currT - prevT > 0 then currT - prevT else 0
      | _, _ => 0
  | _, _ => 0

/-- The specification's total conversation time: sum of the per-pair
durations over all adjacent pairs, rounded to one decimal place; exactly 0
for fewer than two events. -/
def totalConversationTimeSpec (fromiso : String → Option ℚ)
    (events : List Event) : ℚ :=
  if events.length < 2 then 0
  else round1 (((adjPairs events).map
    (fun pc => pairTimeSpec fromiso pc.1 pc.2)).sum)

/-- The body of the average-agent-turn-time walk (lines 124–144): one state
variable `last_trigger_timestamp` (initially `none`); events whose timestamp
is falsy are skipped entirely (`continue`); an `"agent"` event with a truthy
previous trigger records the positive, parseable duration from the trigger to
itself; the trigger is then updated to the current event's timestamp. -/
def agentTurnTimes (fromiso : String → Option ℚ) :
    Option String → List Event → List ℚ
  | _, [] => []
  | last, e :: rest =>
    if truthy e.timestamp then
      let ts := e.timestamp.getD ""
      let sample :=
        if e.source = some "agent" && truthy last then
          match parseTimestamp fromiso ts,
                parseTimestamp fromiso (last.getD "") with
          | some currT, some prevT =>
              if currT - prevT > 0 then [currT - prevT] else []
          | _, _ => []
        else []
      sample ++ agentTurnTimes fromiso (some ts) rest
    else agentTurnTimes fromiso last rest

/-- The average agent turn time (lines 121–149): mean of the recorded
samples rounded to one decimal place, `0` when there are none. -/
def compute_avg_agent_turn_time (fromiso : String → Option ℚ)
    (events : List Event) : ℚ :=
  let samples := agentTurnTimes fromiso none events
  if samples.isEmpty then 0
  else round1 (samples.sum / samples.length)

/-- The specification's turn-time sample for one adjacent pair of
timestamp-carrying events: recorded when the current event's source is
`"agent"`, both timestamps parse, and the duration is strictly positive. -/
def turnSampleSpec (fromiso : String → Option ℚ) (prev curr : Event) :
    Option ℚ :=
  if curr.source = some "agent" then
    match parseTimestamp fromiso (curr.timestamp.getD ""),
          parseTimestamp fromiso (prev.timestamp.getD "") with
    | some currT, some prevT =>
        if currT - prevT > 0 then some (currT - prevT) else none
    | _, _ => none
  else none

/-- The specification's sample list: restrict to the events that carry a
(truthy) timestamp and record one sample per adjacent pair of that restricted
list whose current event is an `"agent"` event. -/
def agentTurnSamplesSpec (fromiso : String → Option ℚ)
    (events : List Event) : List ℚ :=
  (adjPairs (events.filter (fun e => truthy e.timestamp))).filterMap
    (fun pc => turnSampleSpec fromiso pc.1 pc.2)

/-- Stable insertion of one element into a sorted list (kept before the first
strictly larger element, so equal keys preserve the original order, as
Python's stable `sorted` does). -/
def insertLe {α : Type} (le : α → α → Bool) (x : α) : List α → List α
  | [] => [x]
  | y :: ys => if le x y then x :: y :: ys else y :: insertLe le x ys

/-- Stable sort by a boolean total preorder, modelling Python `sorted` /
`list.sort`. -/
def sortByLe {α : Type} (le : α → α → Bool) : List α → List α
  | [] => []
  | x :: xs => insertLe le x (sortByLe le xs)

/-- One `event-*.json` file: its filename, its modification time, and its
parsed content (`none` models a `json.JSONDecodeError`/`IOError`). -/
structure EventFile where
  name : String
  mtime : Int
  content : Option Event
  deriving Repr, DecidableEq

/-- The content of `base_state.json` when the file exists:
it either fails to parse or yields a JSON value. -/
inductive BaseContent where
  | unparsable : BaseContent
  | parsed : Json → BaseContent

/-- The `base_state.json` file: modification time plus content. -/
structure BaseFile where
  mtime : Int
  content : BaseContent

/-- One source trajectory directory: its name (the trajectory ID), its own
modification time, the optional `base_state.json`, and the optional `events`
directory holding the `event-*.json` glob matches. -/
structure TrajectoryInput where
  id : String
  dirMtime : Int
  base : Option BaseFile
  eventsDir : Option (List EventFile)

/-- The fields extracted from a parsed base state (lines 78–95). -/
structure BaseFields where
  title : Json
  model : Json
  promptTokens : Int
  completionTokens : Int
  reasoningTokens : Int
  cacheReadTokens : Int

/-- Default base-state fields (lines 63–68): title falls back to the
trajectory ID, model to `None`/null, every counter to 0. -/
def defaultBaseFields (trajectoryId : String) : BaseFields :=
  ⟨Json.str trajectoryId, Json.null, 0, 0, 0, 0⟩

/-- The nested token-usage chain
`base_state.get("stats", {}).get("usage_to_metrics", {}).get("agent", {})
.get("accumulated_token_usage", {})` (lines 88–91). -/
def tokenUsageOf (j : Json) : Json :=
  (((j.getD "stats" (Json.obj [])).getD "usage_to_metrics"
    (Json.obj [])).getD "agent" (Json.obj [])).getD
    "accumulated_token_usage" (Json.obj [])

/-- Extraction of title, model and token counters from a parsed base state
(lines 78–95). -/
def readBaseFields (trajectoryId : String) (j : Json) : BaseFields :=
  let d := defaultBaseFields trajectoryId
  let withTitle :=
    if j.hasKey "agent" then
      let agent := j.getD "agent" (Json.obj [])
      if agent.isObj then
        let llm := agent.getD "llm" (Json.obj [])
        { d with
          title := agent.getD "id" (Json.str trajectoryId)
          model := if llm.isObj then llm.getD "model" Json.null else d.model }
      else d
    else d
  let tokenUsage := tokenUsageOf j
  { withTitle with
    promptTokens := (tokenUsage.getD "prompt_tokens" (Json.num 0)).asInt
    completionTokens := (tokenUsage.getD "completion_tokens" (Json.num 0)).asInt
    reasoningTokens := (tokenUsage.getD "reasoning_tokens" (Json.num 0)).asInt
    cacheReadTokens := (tokenUsage.getD "cache_read_tokens" (Json.num 0)).asInt }

/-- Base-state reading in `compute_trajectory_metadata` (lines 73–97):
missing file and parse failure both leave every default in place. -/
def readBaseState (trajectoryId : String) (base : Option BaseFile) :
    BaseFields :=
  match base with
  | none => defaultBaseFields trajectoryId
  | some bf =>
    match bf.content with
    | .unparsable => defaultBaseFields trajectoryId
    | .parsed j => readBaseFields trajectoryId j

/-- Lexicographic comparison of character lists by code point, Python's
string ordering. -/
def charListLe : List Char → List Char → Bool
  | [], _ => true
  | _ :: _, [] => false
  | c :: cs, d :: ds =>
    if c.toNat < d.toNat then true
    else if d.toNat < c.toNat then false
    else charListLe cs ds

/-- Python string comparison `a <= b` (lexicographic by code point). -/
def strLe (a b : String) : Bool :=
  charListLe a.data b.data

/-- The event files in filename-sorted order
(`sorted(events_dir.glob("event-*.json"))`). -/
def sortedEventFiles (files : List EventFile) : List EventFile :=
  sortByLe (fun a b => strLe a.name b.name) files

/-- The successfully parsed events, read in filename-sorted order
(lines 105–112 and 214–221). -/
def parsedEvents (files : List EventFile) : List Event :=
  (sortedEventFiles files).filterMap (fun f => f.content)

/-- The parsed events re-sorted by their timestamp string
(`events.sort(key=lambda e: e.get("timestamp", ""))`, line 115). -/
def timestampSortedEvents (files : List EventFile) : List Event :=
  sortByLe (fun a b => strLe (a.timestamp.getD "") (b.timestamp.getD ""))
    (parsedEvents files)

/-- The metadata record returned by `compute_trajectory_metadata`
(lines 156–170). -/
structure Metadata where
  id : String
  title : Json
  model : Json
  created : Int
  eventCount : Nat
  promptTokens : Int
  completionTokens : Int
  reasoningTokens : Int
  cacheReadTokens : Int
  cachePct : Int
  totalTokens : Int
  avgAgentTurnTime : ℚ
  totalConversationTime : ℚ

/-- Python `round(x)` to an integer (half-up on exact rationals; ties do not
arise in the verified properties). -/
def roundInt (x : ℚ) : Int :=
  ⌊x + 1 / 2⌋

/-- `compute_trajectory_metadata` (lines 56–170). -/
def compute_trajectory_metadata (fromiso : String → Option ℚ)
    (t : TrajectoryInput) : Metadata :=
  let bf := readBaseState t.id t.base
  let eventCount :=
    match t.eventsDir with
    | none => 0
    | some files => files.length
  let totalConversationTime :=
    match t.eventsDir with
    | none => 0
    | some files =>
        compute_total_conversation_time fromiso (timestampSortedEvents files)
  let avgAgentTurnTime :=
    match t.eventsDir with
    | none => 0
    | some files =>
        compute_avg_agent_turn_time fromiso (timestampSortedEvents files)
  let totalTokens := bf.promptTokens + bf.completionTokens
  let cachePct :=
    if bf.promptTokens > 0 then
      roundInt ((bf.cacheReadTokens : ℚ) / (bf.promptTokens : ℚ) * 100)
    else 0
  { id := t.id
    title := bf.title
    model := bf.model
    created := t.dirMtime
    eventCount := eventCount
    promptTokens := bf.promptTokens
    completionTokens := bf.completionTokens
    reasoningTokens := bf.reasoningTokens
    cacheReadTokens := bf.cacheReadTokens
    cachePct := cachePct
    totalTokens := totalTokens
    avgAgentTurnTime := avgAgentTurnTime
    totalConversationTime := totalConversationTime }

/-- The per-trajectory detail record written to `trajectory.json`
(lines 173–201): the raw base state is attached verbatim when it parses, and
the `model` key is present exactly when the nested `isinstance` checks pass. -/
structure DetailRecord where
  id : String
  created : Int
  eventCount : Nat
  baseState : Option Json
  model : Option Json

/-- `build_trajectory_detail` (lines 173–201). -/
def build_trajectory_detail (t : TrajectoryInput) : DetailRecord :=
  let parsedBase :=
    match t.base with
    | some bf =>
      match bf.content with
      | .parsed j => some j
      | .unparsable => none
    | none => none
  let model :=
    match parsedBase with
    | some j =>
      let agent := j.getD "agent" (Json.obj [])
      if agent.isObj then
        let llm := agent.getD "llm" (Json.obj [])
        if llm.isObj then some (llm.getD "model" Json.null) else none
      else none
    | none => none
  { id := t.id
    created := t.dirMtime
    eventCount :=
      match t.eventsDir with
      | none => 0
      | some files => files.length
    baseState := parsedBase
    model := model }

/-- `build_events` (lines 204–223): read the event files in filename-sorted
order, skip the unparsable ones, keep the read order in the output. -/
def build_events (t : TrajectoryInput) : List Event :=
  match t.eventsDir with
  | none => []
  | some files => parsedEvents files

/-- `get_source_mtime` (lines 254–264): the maximum modification time over
the trajectory directory itself, `base_state.json` when present, and every
`event-*.json` file. -/
def get_source_mtime (t : TrajectoryInput) : Int :=
  let m := t.dirMtime
  let m :=
    match t.base with
    | some b => max m b.mtime
    | none => m
  match t.eventsDir with
  | some files => files.foldl (fun acc f => max acc f.mtime) m
  | none => m

/-- One entry of the output `data` directory: its name, whether it is a
directory, and the modification time of its `events.json` when that file
exists. -/
structure OutDirEntry where
  name : String
  isDir : Bool
  eventsMtime : Option Int
  deriving Repr, DecidableEq

/-- A write performed by the builder: a per-trajectory `trajectory.json`, a
per-trajectory `events.json`, or the aggregate `trajectories.json`. -/
inductive WriteOp where
  | detail : String → WriteOp
  | events : String → WriteOp
  | indexFile : WriteOp
  deriving Repr, DecidableEq

/-- The builder's accumulated state while walking the source directory. -/
structure BuildState where
  entries : List OutDirEntry
  trajs : List Metadata
  skipped : List String
  rebuilt : List String
  removed : List String
  writes : List WriteOp

/-- Lookup of an output-directory entry by name (first match). -/
def lookupEntry : List OutDirEntry → String → Option OutDirEntry
  | [], _ => none
  | e :: rest, n => if e.name = n then some e else lookupEntry rest n

/-- The skip test of lines 309–314: `events.json` exists under the entry's
output directory and `get_source_mtime(entry) <= events_output.stat().st_mtime`. -/
def shouldSkip (entries : List OutDirEntry) (t : TrajectoryInput) : Bool :=
  match lookupEntry entries t.id with
  | some e =>
    match e.eventsMtime with
    | some m => get_source_mtime t ≤ m
    | none => false
  | none => false

/-- Effect of `mkdir(exist_ok=True)` plus writing `trajectory.json` and
`events.json` at time `now`: the named entry becomes a directory whose
`events.json` is stamped `now`; other entries are untouched. -/
def upsertEntry (entries : List OutDirEntry) (n : String) (now : Int) :
    List OutDirEntry :=
  if (lookupEntry entries n).isSome then
    entries.map (fun e => if e.name == n then ⟨n, true, some now⟩ else e)
  else entries ++ [⟨n, true, some now⟩]

/-- Processing of one conforming source trajectory (lines 300–329): metadata
is always computed and appended; then the trajectory is either skipped or its
detail and events outputs are rewritten. -/
def processTraj (fromiso : String → Option ℚ) (now : Int) (st : BuildState)
    (t : TrajectoryInput) : BuildState :=
  let md := compute_trajectory_metadata fromiso t
  if shouldSkip st.entries t then
    { st with trajs := st.trajs ++ [md], skipped := st.skipped ++ [t.id] }
  else
    { st with
      trajs := st.trajs ++ [md]
      rebuilt := st.rebuilt ++ [t.id]
      entries := upsertEntry st.entries t.id now
      writes := st.writes ++ [WriteOp.detail t.id, WriteOp.events t.id] }

/-- One entry of the source conversations directory: a directory flag plus
the trajectory data reachable under it (`traj.id` is the entry's name and
`traj.dirMtime` its `stat().st_mtime`). -/
structure SourceEntry where
  isDir : Bool
  traj : TrajectoryInput

/-- The sixteen hexadecimal digit characters of the filter string
`"0123456789abcdef"`. -/
def hexDigits : List Char :=
  "0123456789abcdef".data

/-- The filter of lines 293–298: directories whose name has length 32 and
whose lowercased characters are all hexadecimal digits
(`all(c in "0123456789abcdef" for c in entry.name.lower())`; `str.lower`
is modelled by `Char.toLower`, which agrees with Python on ASCII names). -/
def isConforming (e : SourceEntry) : Bool :=
  e.isDir && e.traj.id.data.length == 32 &&
    (e.traj.id.data.map Char.toLower).all (fun c => hexDigits.contains c)

/-- The specification's ID format: exactly 32 lowercase hexadecimal
characters. -/
def isLowerHex32 (s : String) : Bool :=
  s.data.length == 32 && s.data.all (fun c => hexDigits.contains c)

/-- Source entries in descending directory-modification-time order
(`sorted(conversations_dir.iterdir(), key=..., reverse=True)`, stable). -/
def sortSourceEntries (src : List SourceEntry) : List SourceEntry :=
  sortByLe (fun a b => b.traj.dirMtime ≤ a.traj.dirMtime) src

/-- The conforming source trajectories in processing order. -/
def conformingTrajs (src : List SourceEntry) : List TrajectoryInput :=
  ((sortSourceEntries src).filter isConforming).map (fun e => e.traj)

/-- The observed source trajectory IDs. -/
def sourceIds (src : List SourceEntry) : List String :=
  (conformingTrajs src).map (fun t => t.id)

/-- The orphan test of line 334: the entry is a directory and its name is not
among the observed source IDs. -/
def isOrphan (ids : List String) (e : OutDirEntry) : Bool :=
  e.isDir && !(ids.contains e.name)

/-- `build_static_site` (lines 267–343), restricted to the data pipeline:
process every conforming source trajectory, delete orphaned output
directories, then write `trajectories.json` unconditionally. -/
def build_static_site (fromiso : String → Option ℚ) (now : Int)
    (src : List SourceEntry) (entries0 : List OutDirEntry) : BuildState :=
  let st0 : BuildState := ⟨entries0, [], [], [], [], []⟩
  let st1 := (conformingTrajs src).foldl (processTraj fromiso now) st0
  let ids := sourceIds src
  { st1 with
    entries := st1.entries.filter (fun e => !isOrphan ids e)
    removed := (st1.entries.filter (isOrphan ids)).map (fun e => e.name)
    writes := st1.writes ++ [WriteOp.indexFile] }

/-- A concrete test parser used to evaluate the pipeline at the
specification's example timestamps: decimal-integer strings parse to the
corresponding number of seconds, everything else fails. -/
def numParse (s : String) : Option ℚ :=
  if s = "0" then some 0 else if s = "1" then some 1
  else if s = "2" then some 2 else if s = "4" then some 4
  else if s = "5" then some 5 else if s = "9" then some 9
  else if s = "10" then some 10 else none

/-- Shorthand for an event with the given source and timestamp strings. -/
def mkEv (src ts : String) : Event := ⟨some src, some ts⟩

theorem parseTimestamp_empty (fromiso : String → Option ℚ)
    (h : fromiso "" = none) : parseTimestamp fromiso "" = none := h

theorem pairTime_eq_spec (fromiso : String → Option ℚ)
    (h : fromiso "" = none) (prev curr : Event) :
    pairTime fromiso prev curr = pairTimeSpec fromiso prev curr := by
  have he : parseTimestamp fromiso "" = none := parseTimestamp_empty fromiso h
  rcases prev with ⟨ps, pt⟩
  rcases curr with ⟨cs, ct⟩
  cases pt with
  | none => simp [pairTime, pairTimeSpec, truthy]
  | some pt =>
    cases ct with
    | none => simp [pairTime, pairTimeSpec, truthy]
    | some ct =>
      by_cases hps : ps = some "user"
      · simp [pairTime, pairTimeSpec, hps]
      · by_cases hpt : pt = ""
        · simp [pairTime, pairTimeSpec, truthy, hps, hpt, he]
        · by_cases hct : ct = ""
          · cases hp : parseTimestamp fromiso pt <;>
              simp [pairTime, pairTimeSpec, truthy, hps, hpt, hct, he, hp]
          · simp [pairTime, pairTimeSpec, truthy, hps, hpt, hct]

theorem totalTimeGo_eq_sum (fromiso : String → Option ℚ)
    (events : List Event) :
    totalTimeGo fromiso events =
      ((adjPairs events).map (fun pc => pairTime fromiso pc.1 pc.2)).sum := by
  induction events with
  | nil => simp [totalTimeGo, adjPairs]
  | cons p rest ih =>
    cases rest with
    | nil => simp [totalTimeGo, adjPairs, pairsFrom]
    | cons c rest2 =>
      have hadj : adjPairs (p :: c :: rest2) =
          (p, c) :: adjPairs (c :: rest2) := by
        simp [adjPairs, pairsFrom]
      rw [totalTimeGo, hadj]
      simp [ih]

/-- C1: for every event list sorted by timestamp,
`compute_total_conversation_time` returns the sum over every adjacent pair
`(events[i-1], events[i])` of the duration between their timestamps, counted
only when `events[i-1].source != "user"`, only when the duration is strictly
positive and both timestamps are present and parseable (a pair otherwise
contributes zero), with the result rounded to one decimal place; a list of
fewer than 2 events yields exactly 0; `[user@t0, user@t1, user@t2]` yields 0
and `[agent@t0, user@t5]` yields 5.0.  (The parser hypothesis records that
`datetime.fromisoformat` rejects the empty string, so that the code's
truthiness test on a timestamp agrees with "present and parseable".) -/
theorem totalConversationTime_correct (fromiso : String → Option ℚ)
    (h : fromiso "" = none) :
    (∀ events : List Event,
      compute_total_conversation_time fromiso events =
        totalConversationTimeSpec fromiso events) ∧
    compute_total_conversation_time numParse
      [mkEv "user" "0", mkEv "user" "1", mkEv "user" "2"] = 0 ∧
    compute_total_conversation_time numParse
      [mkEv "agent" "0", mkEv "user" "5"] = 5 := by
  refine ⟨fun events => ?_, ?_, ?_⟩
  · have hfun : (fun pc : Event × Event => pairTime fromiso pc.1 pc.2) =
        (fun pc : Event × Event => pairTimeSpec fromiso pc.1 pc.2) :=
      funext fun pc => pairTime_eq_spec fromiso h pc.1 pc.2
    rw [compute_total_conversation_time, totalConversationTimeSpec,
      totalTimeGo_eq_sum, hfun]
  · simp [compute_total_conversation_time, totalTimeGo, pairTime, truthy,
      parseTimestamp, replaceZ, replaceZChars, numParse, round1, mkEv]
    norm_num
  · simp [compute_total_conversation_time, totalTimeGo, pairTime, truthy,
      parseTimestamp, replaceZ, replaceZChars, numParse, round1, mkEv]
    norm_num

/-- Witness for C1: the hypothesis is discharged at the concrete parser
`numParse` and the conclusion instantiated there. -/
theorem totalConversationTime_correct_witness :
    numParse "" = none ∧
    ((∀ events : List Event,
      compute_total_conversation_time numParse events =
        totalConversationTimeSpec numParse events) ∧
    compute_total_conversation_time numParse
      [mkEv "user" "0", mkEv "user" "1", mkEv "user" "2"] = 0 ∧
    compute_total_conversation_time numParse
      [mkEv "agent" "0", mkEv "user" "5"] = 5) :=
  ⟨by decide, totalConversationTime_correct numParse (by decide)⟩

theorem agentTurnTimes_filter (fromiso : String → Option ℚ)
    (events : List Event) : ∀ last : Option String,
    agentTurnTimes fromiso last events =
      agentTurnTimes fromiso last
        (events.filter (fun e => truthy e.timestamp)) := by
  induction events with
  | nil => intro last; rfl
  | cons e rest ih =>
    intro last
    cases ht : truthy e.timestamp with
    | true => simp [agentTurnTimes, ht, ih]
    | false => simp [agentTurnTimes, ht, ih last]

theorem agentTurnTimes_pairs (fromiso : String → Option ℚ)
    (events : List Event) (hall : ∀ e ∈ events, truthy e.timestamp = true) :
    ∀ p : Event, truthy p.timestamp = true →
    agentTurnTimes fromiso (some (p.timestamp.getD "")) events =
      (pairsFrom p events).filterMap
        (fun pc => turnSampleSpec fromiso pc.1 pc.2) := by
  induction events with
  | nil => intro p _; rfl
  | cons e rest ih =>
    intro p hp
    have he : truthy e.timestamp = true := hall e (by simp)
    have hrest : ∀ x ∈ rest, truthy x.timestamp = true :=
      fun x hx => hall x (by simp [hx])
    have hsample :
        (if e.source = some "agent" && truthy (some (p.timestamp.getD "")) then
          match parseTimestamp fromiso (e.timestamp.getD ""),
                parseTimestamp fromiso ((some (p.timestamp.getD "")).getD "") with
          | some currT, some prevT =>
              if currT - prevT > 0 then [currT - prevT] else []
          | _, _ => []
        else []) = (turnSampleSpec fromiso p e).toList := by
      have hps : truthy (some (p.timestamp.getD "")) = true := by
        cases hpt : p.timestamp with
        | none => rw [hpt] at hp; simp [truthy] at hp
        | some s => rw [hpt] at hp; simpa [truthy] using hp
      rw [hps]
      by_cases ha : e.source = some "agent"
      · simp only [ha, Bool.and_true, turnSampleSpec, if_pos rfl,
          Option.getD_some]
        cases parseTimestamp fromiso (e.timestamp.getD "") with
        | none => simp
        | some currT =>
          cases parseTimestamp fromiso (p.timestamp.getD "") with
          | none => simp
          | some prevT =>
            by_cases hpos : currT - prevT > 0 <;> simp [hpos]
      · simp [ha, turnSampleSpec]
    rw [pairsFrom, List.filterMap_cons]
    cases hspec : turnSampleSpec fromiso p e with
    | none =>
      simp only [agentTurnTimes, he, if_pos rfl]
      rw [hsample, hspec]
      simpa using ih hrest e he
    | some d =>
      simp only [agentTurnTimes, he, if_pos rfl]
      rw [hsample, hspec]
      simpa using ih hrest e he

theorem agentTurnTimes_eq_samples (fromiso : String → Option ℚ)
    (events : List Event) :
    agentTurnTimes fromiso none events =
      agentTurnSamplesSpec fromiso events := by
  rw [agentTurnTimes_filter fromiso events none, agentTurnSamplesSpec]
  set l := events.filter (fun e => truthy e.timestamp) with hl
  have hall : ∀ e ∈ l, truthy e.timestamp = true := by
    intro e he
    rw [hl] at he
    exact (List.mem_filter.mp he).2
  cases hle : l with
  | nil => rfl
  | cons e rest =>
    have he : truthy e.timestamp = true := hall e (by simp [hle])
    have hrest : ∀ x ∈ rest, truthy x.timestamp = true :=
      fun x hx => hall x (by simp [hle, hx])
    simp only [agentTurnTimes, he, if_pos rfl, adjPairs]
    have hnone : truthy (none : Option String) = false := rfl
    rw [show (e.source = some "agent" && truthy (none : Option String)) =
      false by simp [hnone]]
    simpa using agentTurnTimes_pairs fromiso rest hrest e he

/-- The specification's average agent turn time: arithmetic mean of the
recorded samples rounded to one decimal place, 0 when there are none. -/
def avgAgentTurnTimeSpec (fromiso : String → Option ℚ)
    (events : List Event) : ℚ :=
  let samples := agentTurnSamplesSpec fromiso events
  if samples.isEmpty then 0
  else round1 (samples.sum / samples.length)

/-- C2: for every event list sorted by timestamp, the average agent turn
time is the arithmetic mean, rounded to one decimal place (0 when there are
no samples), of the samples obtained by walking the events while maintaining
the last seen timestamp as the trigger: whenever the current event's source
is `"agent"` and a previous trigger exists, the strictly positive, parseable
duration from the trigger to the current event is one sample; in particular
`[user@t0, agent@t4, agent@t10]` yields samples 4 and 6 and average 5.0. -/
theorem avgAgentTurnTime_correct :
    (∀ (fromiso : String → Option ℚ) (events : List Event),
      compute_avg_agent_turn_time fromiso events =
        avgAgentTurnTimeSpec fromiso events) ∧
    agentTurnTimes numParse none
      [mkEv "user" "0", mkEv "agent" "4", mkEv "agent" "10"] = [4, 6] ∧
    compute_avg_agent_turn_time numParse
      [mkEv "user" "0", mkEv "agent" "4", mkEv "agent" "10"] = 5 := by
  refine ⟨fun fromiso events => ?_, ?_, ?_⟩
  · rw [compute_avg_agent_turn_time, avgAgentTurnTimeSpec,
      agentTurnTimes_eq_samples]
  · simp [agentTurnTimes, truthy, parseTimestamp, replaceZ, replaceZChars,
      numParse, mkEv]
    norm_num
  · simp [compute_avg_agent_turn_time, agentTurnTimes, truthy,
      parseTimestamp, replaceZ, replaceZChars, numParse, round1, mkEv]
    norm_num

/-- C10: in the average-agent-turn-time walk, an event whose timestamp is
missing or empty is skipped entirely: it contributes no sample even when its
source is `"agent"` and it does not update the trigger, so the walk over
`xs ++ [e] ++ ys` records exactly the samples of the walk over `xs ++ ys`,
and a subsequent agent event is measured from the most recent event that
carried a timestamp. -/
theorem timestamplessEventSkipped (fromiso : String → Option ℚ)
    (xs ys : List Event) (e : Event) (h : truthy e.timestamp = false) :
    agentTurnTimes fromiso none (xs ++ e :: ys) =
      agentTurnTimes fromiso none (xs ++ ys) ∧
    compute_avg_agent_turn_time fromiso (xs ++ e :: ys) =
      compute_avg_agent_turn_time fromiso (xs ++ ys) := by
  have hfilter : (xs ++ e :: ys).filter (fun x => truthy x.timestamp) =
      (xs ++ ys).filter (fun x => truthy x.timestamp) := by
    simp [List.filter_append, List.filter_cons, h]
  have hsame : agentTurnTimes fromiso none (xs ++ e :: ys) =
      agentTurnTimes fromiso none (xs ++ ys) := by
    rw [agentTurnTimes_filter fromiso (xs ++ e :: ys) none, hfilter,
      ← agentTurnTimes_filter fromiso (xs ++ ys) none]
  exact ⟨hsame, by rw [compute_avg_agent_turn_time,
    compute_avg_agent_turn_time, hsame]⟩

/-- Witness for C10: a timestampless agent event between `user@t0` and
`agent@t4` neither records a sample nor shifts the measurement base. -/
theorem timestamplessEventSkipped_witness :
    truthy (Event.mk (some "agent") none).timestamp = false ∧
    (agentTurnTimes numParse none
        ([mkEv "user" "0"] ++ Event.mk (some "agent") none ::
          [mkEv "agent" "4"]) =
      agentTurnTimes numParse none ([mkEv "user" "0"] ++ [mkEv "agent" "4"]) ∧
    compute_avg_agent_turn_time numParse
        ([mkEv "user" "0"] ++ Event.mk (some "agent") none ::
          [mkEv "agent" "4"]) =
      compute_avg_agent_turn_time numParse
        ([mkEv "user" "0"] ++ [mkEv "agent" "4"])) :=
  ⟨by decide, timestamplessEventSkipped numParse [mkEv "user" "0"]
    [mkEv "agent" "4"] (Event.mk (some "agent") none) (by decide)⟩

theorem filterMap_insertLe_none {α β : Type} (le : α → α → Bool)
    (f : α → Option β) (x : α) (hx : f x = none) :
    ∀ l : List α, (insertLe le x l).filterMap f = l.filterMap f := by
  intro l
  induction l with
  | nil => simp [insertLe, hx]
  | cons y ys ih =>
    rw [insertLe]
    by_cases h : le x y = true
    · simp [h, List.filterMap_cons, hx]
    · rw [if_neg h]
      simp [List.filterMap_cons, ih]

theorem insertLe_perm {α : Type} (le : α → α → Bool) (x : α) :
    ∀ l : List α, List.Perm (insertLe le x l) (x :: l) := by
  intro l
  induction l with
  | nil => simp [insertLe]
  | cons y ys ih =>
    rw [insertLe]
    by_cases h : le x y = true
    · simp [h]
    · rw [if_neg h]
      exact List.Perm.trans (ih.cons y) (List.Perm.swap x y ys)

theorem sortByLe_perm {α : Type} (le : α → α → Bool) :
    ∀ l : List α, List.Perm (sortByLe le l) l := by
  intro l
  induction l with
  | nil => simp [sortByLe]
  | cons x xs ih =>
    rw [sortByLe]
    exact List.Perm.trans (insertLe_perm le x (sortByLe le xs)) (ih.cons x)

theorem length_filterMap_eq_countP {α β : Type} (f : α → Option β) :
    ∀ l : List α, (l.filterMap f).length = l.countP (fun a => (f a).isSome) := by
  intro l
  induction l with
  | nil => simp
  | cons x xs ih =>
    rw [List.filterMap_cons, List.countP_cons]
    cases hx : f x with
    | none => simp [hx, ih]
    | some b => simp [hx, ih]

/-- A parsable event file whose filename sorts first but whose timestamp
sorts last. -/
def fileA : EventFile := ⟨"event-0.json", 0, some ⟨some "agent", some "9"⟩⟩

/-- A parsable event file whose filename sorts second but whose timestamp
sorts first. -/
def fileB : EventFile := ⟨"event-1.json", 0, some ⟨some "user", some "1"⟩⟩

/-- An event file whose content fails to parse. -/
def fileBad : EventFile := ⟨"event-2.json", 0, none⟩

/-- A trajectory whose two event files are listed out of filename order and
whose filename order disagrees with timestamp order. -/
def trajAB : TrajectoryInput := ⟨"t", 0, none, some [fileB, fileA]⟩

/-- The same trajectory with the unparsable file added. -/
def trajABBad : TrajectoryInput :=
  ⟨"t", 0, none, some (fileBad :: [fileB, fileA])⟩

/-- C7: `build_events` reads event files in filename-sorted order and the
stored output preserves that read order without re-sorting by timestamp —
unlike the metrics path, which sorts by timestamp before the duration math —
and an event file that fails to parse is skipped while the remaining files
are still processed: adding an unparsable file leaves the output unchanged.
The concrete conjuncts exhibit the contrast: the stored order is the
filename order `[agent@9, user@1]` while the metrics path works on the
timestamp-sorted `[user@1, agent@9]`. -/
theorem buildEvents_readOrder (t t2 : TrajectoryInput)
    (files : List EventFile) (bad : EventFile) (hbad : bad.content = none)
    (ht : t.eventsDir = some (bad :: files))
    (ht2 : t2.eventsDir = some files) :
    build_events t = build_events t2 ∧
    build_events trajAB =
      [⟨some "agent", some "9"⟩, ⟨some "user", some "1"⟩] ∧
    timestampSortedEvents [fileB, fileA] =
      [⟨some "user", some "1"⟩, ⟨some "agent", some "9"⟩] := by
  refine ⟨?_, by decide, by decide⟩
  rw [build_events, build_events, ht, ht2]
  show parsedEvents (bad :: files) = parsedEvents files
  rw [parsedEvents, parsedEvents, sortedEventFiles, sortByLe]
  exact filterMap_insertLe_none _ _ bad hbad _

/-- Witness for C7: the general part applied to the concrete unparsable
file `fileBad`. -/
theorem buildEvents_readOrder_witness :
    fileBad.content = none ∧
    (build_events trajABBad = build_events trajAB ∧
    build_events trajAB =
      [⟨some "agent", some "9"⟩, ⟨some "user", some "1"⟩] ∧
    timestampSortedEvents [fileB, fileA] =
      [⟨some "user", some "1"⟩, ⟨some "agent", some "9"⟩]) :=
  ⟨rfl, buildEvents_readOrder trajABBad trajAB [fileB, fileA] fileBad rfl
    rfl rfl⟩

/-- C8: the `eventCount` reported in the metrics summary and in the detail
record both equal the number of event files listed in the events directory,
independent of how many parse, while the event list used for the
conversation-time and turn-time math contains only the successfully parsed
files; the concrete conjuncts show the discrepancy at a directory with three
files of which one is unparsable (count 3 versus math-list length 2). -/
theorem eventCount_discrepancy (fromiso : String → Option ℚ)
    (t : TrajectoryInput) (files : List EventFile)
    (ht : t.eventsDir = some files) :
    (compute_trajectory_metadata fromiso t).eventCount = files.length ∧
    (build_trajectory_detail t).eventCount = files.length ∧
    (timestampSortedEvents files).length =
      files.countP (fun f => f.content.isSome) ∧
    (compute_trajectory_metadata numParse trajABBad).eventCount = 3 ∧
    (timestampSortedEvents (fileBad :: [fileB, fileA])).length = 2 := by
  refine ⟨?_, ?_, ?_, by decide, by decide⟩
  · simp [compute_trajectory_metadata, ht]
  · simp [build_trajectory_detail, ht]
  · rw [timestampSortedEvents,
      (sortByLe_perm _ (parsedEvents files)).length_eq, parsedEvents,
      length_filterMap_eq_countP, sortedEventFiles,
      (sortByLe_perm _ files).countP_eq]

/-- Witness for C8: the theorem applied to the three-file directory with one
unparsable file. -/
theorem eventCount_discrepancy_witness :
    trajABBad.eventsDir = some (fileBad :: [fileB, fileA]) ∧
    ((compute_trajectory_metadata numParse trajABBad).eventCount =
      (fileBad :: [fileB, fileA]).length ∧
    (build_trajectory_detail trajABBad).eventCount =
      (fileBad :: [fileB, fileA]).length ∧
    (timestampSortedEvents (fileBad :: [fileB, fileA])).length =
      (fileBad :: [fileB, fileA]).countP (fun f => f.content.isSome) ∧
    (compute_trajectory_metadata numParse trajABBad).eventCount = 3 ∧
    (timestampSortedEvents (fileBad :: [fileB, fileA])).length = 2) :=
  ⟨rfl, eventCount_discrepancy numParse trajABBad (fileBad :: [fileB, fileA])
    rfl⟩

theorem foldl_max_le_iff :
    ∀ (l : List EventFile) (a m : Int),
    (l.foldl (fun acc f => max acc f.mtime) a ≤ m) ↔
      (a ≤ m ∧ ∀ f ∈ l, f.mtime ≤ m) := by
  intro l
  induction l with
  | nil => intro a m; simp
  | cons f fs ih =>
    intro a m
    rw [List.foldl_cons, ih (max a f.mtime) m]
    simp [max_le_iff, and_assoc]

theorem get_source_mtime_le_iff (t : TrajectoryInput) (m : Int) :
    get_source_mtime t ≤ m ↔
      (t.dirMtime ≤ m ∧ (∀ b, t.base = some b → b.mtime ≤ m) ∧
       (∀ files, t.eventsDir = some files → ∀ f ∈ files, f.mtime ≤ m)) := by
  rcases t with ⟨id, dm, base, ev⟩
  cases base <;> cases ev <;>
    simp [get_source_mtime, foldl_max_le_iff, max_le_iff, and_assoc]

/-- C3: a trajectory's detail and events outputs are skipped exactly when
its `events.json` output exists and its modification time is at least every
source modification time — the trajectory directory itself, the
`base_state.json` when present, and every event file — and otherwise both
the detail and the events outputs are rewritten. -/
theorem skip_iff_fresh (fromiso : String → Option ℚ) (now : Int)
    (st : BuildState) (t : TrajectoryInput) :
    (shouldSkip st.entries t = true ↔
      ∃ e, lookupEntry st.entries t.id = some e ∧
        ∃ m, e.eventsMtime = some m ∧
          t.dirMtime ≤ m ∧ (∀ b, t.base = some b → b.mtime ≤ m) ∧
          (∀ files, t.eventsDir = some files → ∀ f ∈ files, f.mtime ≤ m)) ∧
    (processTraj fromiso now st t).writes =
      (if shouldSkip st.entries t then st.writes
       else st.writes ++ [WriteOp.detail t.id, WriteOp.events t.id]) := by
  constructor
  · rw [shouldSkip]
    cases hl : lookupEntry st.entries t.id with
    | none => simp [hl]
    | some e =>
      cases hm : e.eventsMtime with
      | none => simp [hm]
      | some m => simp [hm, get_source_mtime_le_iff]
  · cases hskip : shouldSkip st.entries t <;> simp [processTraj, hskip]

theorem lookup_append_none (n : String) (x : OutDirEntry) :
    ∀ es : List OutDirEntry, lookupEntry es n = none →
    lookupEntry (es ++ [x]) n = lookupEntry [x] n := by
  intro es
  induction es with
  | nil => intro _; rfl
  | cons e rest ih =>
    intro h
    rw [lookupEntry] at h
    rw [List.cons_append, lookupEntry]
    by_cases hb : e.name = n
    · rw [if_pos hb] at h; exact absurd h (by simp)
    · rw [if_neg hb] at h
      rw [if_neg hb]
      exact ih h

theorem lookup_upsert_self (es : List OutDirEntry) (n : String) (now : Int) :
    lookupEntry (upsertEntry es n now) n =
      some ⟨n, true, some now⟩ := by
  rw [upsertEntry]
  by_cases h : (lookupEntry es n).isSome
  · rw [if_pos h]
    induction es with
    | nil => simp [lookupEntry] at h
    | cons e rest ih =>
      rw [lookupEntry] at h
      rw [List.map_cons]
      by_cases hb : e.name = n
      · rw [if_pos (by simp [hb])]
        rw [lookupEntry, if_pos rfl]
      · rw [if_neg (by simp [hb])]
        rw [if_neg hb] at h
        rw [lookupEntry, if_neg hb]
        exact ih h
  · rw [if_neg h]
    have hnone : lookupEntry es n = none := by
      cases hl : lookupEntry es n with
      | none => rfl
      | some e => rw [hl] at h; simp at h
    rw [lookup_append_none n _ es hnone, lookupEntry, if_pos rfl]

theorem lookup_upsert_ne (es : List OutDirEntry) (n : String) (now : Int)
    (m : String) (hne : m ≠ n) :
    lookupEntry (upsertEntry es n now) m = lookupEntry es m := by
  have hnm : n ≠ m := fun hx => hne hx.symm
  rw [upsertEntry]
  by_cases h : (lookupEntry es n).isSome
  · rw [if_pos h]
    clear h
    induction es with
    | nil => rfl
    | cons e rest ih =>
      rw [List.map_cons]
      by_cases hb : e.name = n
      · rw [if_pos (by simp [hb])]
        have hem : ¬(e.name = m) := by rw [hb]; exact hnm
        rw [lookupEntry, if_neg hnm, lookupEntry, if_neg hem]
        exact ih
      · rw [if_neg (by simp [hb])]
        rw [lookupEntry, lookupEntry]
        by_cases hm : e.name = m
        · rw [if_pos hm, if_pos hm]
        · rw [if_neg hm, if_neg hm]
          exact ih
  · rw [if_neg h]
    induction es with
    | nil =>
      rw [List.nil_append]
      simp [lookupEntry, hnm]
    | cons e rest ih =>
      rw [List.cons_append, lookupEntry, lookupEntry]
      by_cases hm : e.name = m
      · rw [if_pos hm, if_pos hm]
      · rw [if_neg hm, if_neg hm]
        apply ih
        intro hs
        apply h
        rw [lookupEntry]
        by_cases hb : e.name = n
        · rw [if_pos hb]; simp
        · rw [if_neg hb]; exact hs

theorem shouldSkip_congr (es1 es2 : List OutDirEntry) (t : TrajectoryInput)
    (hl : lookupEntry es1 t.id = lookupEntry es2 t.id) :
    shouldSkip es1 t = shouldSkip es2 t := by
  rw [shouldSkip, shouldSkip, hl]

theorem shouldSkip_upsert_self (es : List OutDirEntry) (now : Int)
    (t : TrajectoryInput) (hle : get_source_mtime t ≤ now) :
    shouldSkip (upsertEntry es t.id now) t = true := by
  rw [shouldSkip, lookup_upsert_self]
  exact decide_eq_true hle

theorem shouldSkip_after_upsert (es : List OutDirEntry) (n : String)
    (now : Int) (t : TrajectoryInput) (hle : get_source_mtime t ≤ now)
    (hprev : shouldSkip es t = true) :
    shouldSkip (upsertEntry es n now) t = true := by
  by_cases hid : t.id = n
  · subst hid
    exact shouldSkip_upsert_self es now t hle
  · rw [shouldSkip_congr _ es t (lookup_upsert_ne es n now t.id hid)]
    exact hprev

theorem processTraj_establishes (fromiso : String → Option ℚ) (now : Int)
    (st : BuildState) (t : TrajectoryInput)
    (hle : get_source_mtime t ≤ now) :
    shouldSkip ((processTraj fromiso now st t).entries) t = true := by
  rw [processTraj]
  cases hskip : shouldSkip st.entries t with
  | true => simpa using hskip
  | false =>
    simp only [hskip, Bool.false_eq_true, if_false]
    exact shouldSkip_upsert_self st.entries now t hle

theorem processTraj_preserves (fromiso : String → Option ℚ) (now : Int)
    (st : BuildState) (u t : TrajectoryInput)
    (hle : get_source_mtime t ≤ now)
    (hprev : shouldSkip st.entries t = true) :
    shouldSkip ((processTraj fromiso now st u).entries) t = true := by
  rw [processTraj]
  cases hskip : shouldSkip st.entries u with
  | true => simpa using hprev
  | false =>
    simp only [hskip, Bool.false_eq_true, if_false]
    exact shouldSkip_after_upsert st.entries u.id now t hle hprev

theorem foldl_preserves_fresh (fromiso : String → Option ℚ) (now : Int) :
    ∀ (ts : List TrajectoryInput) (st : BuildState) (t : TrajectoryInput),
    get_source_mtime t ≤ now → shouldSkip st.entries t = true →
    shouldSkip ((ts.foldl (processTraj fromiso now) st).entries) t = true := by
  intro ts
  induction ts with
  | nil => intro st t _ hprev; simpa using hprev
  | cons u ts2 ih =>
    intro st t hle hprev
    rw [List.foldl_cons]
    exact ih (processTraj fromiso now st u) t hle
      (processTraj_preserves fromiso now st u t hle hprev)

theorem foldl_establishes_fresh (fromiso : String → Option ℚ) (now : Int) :
    ∀ (ts : List TrajectoryInput) (st : BuildState),
    (∀ t ∈ ts, get_source_mtime t ≤ now) →
    ∀ t ∈ ts,
    shouldSkip ((ts.foldl (processTraj fromiso now) st).entries) t = true := by
  intro ts
  induction ts with
  | nil => intro st _ t ht; simp at ht
  | cons u ts2 ih =>
    intro st hall t ht
    rw [List.foldl_cons]
    rcases List.mem_cons.mp ht with rfl | ht2
    · exact foldl_preserves_fresh fromiso now ts2
        (processTraj fromiso now st t) t (hall t (by simp))
        (processTraj_establishes fromiso now st t (hall t (by simp)))
    · exact ih (processTraj fromiso now st u)
        (fun x hx => hall x (by simp [hx])) t ht2

theorem foldl_trajs (fromiso : String → Option ℚ) (now : Int) :
    ∀ (ts : List TrajectoryInput) (st : BuildState),
    (ts.foldl (processTraj fromiso now) st).trajs =
      st.trajs ++ ts.map (compute_trajectory_metadata fromiso) := by
  intro ts
  induction ts with
  | nil => intro st; simp
  | cons u ts2 ih =>
    intro st
    rw [List.foldl_cons, ih, List.map_cons]
    have hstep : (processTraj fromiso now st u).trajs =
        st.trajs ++ [compute_trajectory_metadata fromiso u] := by
      rw [processTraj]
      cases hskip : shouldSkip st.entries u <;> simp [hskip]
    rw [hstep, List.append_assoc]
    rfl

theorem foldl_all_skip (fromiso : String → Option ℚ) (now : Int) :
    ∀ (ts : List TrajectoryInput) (st : BuildState),
    (∀ t ∈ ts, shouldSkip st.entries t = true) →
    ((ts.foldl (processTraj fromiso now) st).entries = st.entries ∧
     (ts.foldl (processTraj fromiso now) st).rebuilt = st.rebuilt ∧
     (ts.foldl (processTraj fromiso now) st).writes = st.writes) := by
  intro ts
  induction ts with
  | nil => intro st _; exact ⟨rfl, rfl, rfl⟩
  | cons u ts2 ih =>
    intro st hall
    rw [List.foldl_cons]
    have hu : shouldSkip st.entries u = true := hall u (by simp)
    have hstep : (processTraj fromiso now st u).entries = st.entries ∧
        (processTraj fromiso now st u).rebuilt = st.rebuilt ∧
        (processTraj fromiso now st u).writes = st.writes := by
      rw [processTraj]
      simp [hu]
    obtain ⟨he, hr, hw⟩ := hstep
    have hall2 : ∀ t ∈ ts2,
        shouldSkip ((processTraj fromiso now st u).entries) t = true := by
      intro t ht
      rw [he]
      exact hall t (by simp [ht])
    obtain ⟨ihe, ihr, ihw⟩ := ih (processTraj fromiso now st u) hall2
    exact ⟨by rw [ihe, he], by rw [ihr, hr], by rw [ihw, hw]⟩

theorem lookup_filter_keep (keep : OutDirEntry → Bool) (n : String)
    (hkeep : ∀ e : OutDirEntry, e.name = n → keep e = true) :
    ∀ es : List OutDirEntry,
    lookupEntry (es.filter keep) n = lookupEntry es n := by
  intro es
  induction es with
  | nil => rfl
  | cons e rest ih =>
    rw [List.filter_cons]
    by_cases hm : e.name = n
    · rw [if_pos (hkeep e hm), lookupEntry, lookupEntry, if_pos hm, if_pos hm]
    · by_cases hk : keep e = true
      · rw [if_pos hk, lookupEntry, lookupEntry, if_neg hm, if_neg hm]
        exact ih
      · rw [if_neg hk, lookupEntry, if_neg hm]
        exact ih

/-- C4: on every run the metrics summary is recomputed for every conforming
source trajectory regardless of staleness, and `trajectories.json` is
rewritten covering every trajectory present in the source; running twice
with no source changes (all source modification times at or before the
first run's write time) performs zero per-trajectory detail/events rewrites
on the second run while still writing `trajectories.json` both times. -/
theorem build_recomputes_index_and_is_idempotent
    (fromiso : String → Option ℚ) (now now2 : Int)
    (src : List SourceEntry) (entries0 : List OutDirEntry)
    (h : ∀ t ∈ conformingTrajs src, get_source_mtime t ≤ now) :
    (build_static_site fromiso now src entries0).trajs =
      (conformingTrajs src).map (compute_trajectory_metadata fromiso) ∧
    WriteOp.indexFile ∈ (build_static_site fromiso now src entries0).writes ∧
    (build_static_site fromiso now2 src
        (build_static_site fromiso now src entries0).entries).trajs =
      (conformingTrajs src).map (compute_trajectory_metadata fromiso) ∧
    (build_static_site fromiso now2 src
        (build_static_site fromiso now src entries0).entries).rebuilt = [] ∧
    (build_static_site fromiso now2 src
        (build_static_site fromiso now src entries0).entries).writes =
      [WriteOp.indexFile] := by
  have hraw1trajs : (build_static_site fromiso now src entries0).trajs =
      ((conformingTrajs src).foldl (processTraj fromiso now)
        ⟨entries0, [], [], [], [], []⟩).trajs := rfl
  have hraw1entries : (build_static_site fromiso now src entries0).entries =
      ((conformingTrajs src).foldl (processTraj fromiso now)
        ⟨entries0, [], [], [], [], []⟩).entries.filter
        (fun e => !isOrphan (sourceIds src) e) := rfl
  have hraw1writes : (build_static_site fromiso now src entries0).writes =
      ((conformingTrajs src).foldl (processTraj fromiso now)
        ⟨entries0, [], [], [], [], []⟩).writes ++ [WriteOp.indexFile] := rfl
  have hfresh2 : ∀ t ∈ conformingTrajs src,
      shouldSkip (build_static_site fromiso now src entries0).entries t =
        true := by
    intro t ht
    rw [hraw1entries]
    have hkeep : ∀ e : OutDirEntry, e.name = t.id →
        (fun e => !isOrphan (sourceIds src) e) e = true := by
      intro e hen
      have hmem : t.id ∈ sourceIds src := by
        exact List.mem_map_of_mem (fun x => x.id) ht
      have hc : (sourceIds src).contains e.name = true := by
        rw [hen]
        simpa using hmem
      simp [isOrphan, hc]
      exact Or.inr (by simpa using hc)
    rw [shouldSkip_congr _ _ t (lookup_filter_keep _ t.id hkeep _)]
    exact foldl_establishes_fresh fromiso now (conformingTrajs src)
      ⟨entries0, [], [], [], [], []⟩ h t ht
  have hallskip : ∀ t ∈ conformingTrajs src,
      shouldSkip (⟨(build_static_site fromiso now src entries0).entries,
        [], [], [], [], []⟩ : BuildState).entries t = true := hfresh2
  obtain ⟨h2e, h2r, h2w⟩ := foldl_all_skip fromiso now2 (conformingTrajs src)
    ⟨(build_static_site fromiso now src entries0).entries,
      [], [], [], [], []⟩ hallskip
  refine ⟨?_, ?_, ?_, ?_, ?_⟩
  · rw [hraw1trajs, foldl_trajs]
    rfl
  · rw [hraw1writes]
    simp
  · have : (build_static_site fromiso now2 src
        (build_static_site fromiso now src entries0).entries).trajs =
        ((conformingTrajs src).foldl (processTraj fromiso now2)
          ⟨(build_static_site fromiso now src entries0).entries,
            [], [], [], [], []⟩).trajs := rfl
    rw [this, foldl_trajs]
    rfl
  · have : (build_static_site fromiso now2 src
        (build_static_site fromiso now src entries0).entries).rebuilt =
        ((conformingTrajs src).foldl (processTraj fromiso now2)
          ⟨(build_static_site fromiso now src entries0).entries,
            [], [], [], [], []⟩).rebuilt := rfl
    rw [this, h2r]
  · have : (build_static_site fromiso now2 src
        (build_static_site fromiso now src entries0).entries).writes =
        ((conformingTrajs src).foldl (processTraj fromiso now2)
          ⟨(build_static_site fromiso now src entries0).entries,
            [], [], [], [], []⟩).writes ++ [WriteOp.indexFile] := rfl
    rw [this, h2w]
    rfl

/-- A 32-character lowercase hexadecimal trajectory ID. -/
def hexId : String := "deadbeefdeadbeefdeadbeefdeadbeef"

/-- A one-trajectory source directory whose artifacts all predate time 10. -/
def srcW : List SourceEntry :=
  [⟨true, ⟨hexId, 5, none,
    some [⟨"event-0.json", 3, some ⟨some "user", some "0"⟩⟩]⟩⟩]

/-- Witness for C4: the two-run property at a concrete one-trajectory
source, first run at time 10, second at time 20. -/
theorem build_recomputes_index_and_is_idempotent_witness :
    (∀ t ∈ conformingTrajs srcW, get_source_mtime t ≤ 10) ∧
    ((build_static_site numParse 10 srcW []).trajs =
      (conformingTrajs srcW).map (compute_trajectory_metadata numParse) ∧
    WriteOp.indexFile ∈ (build_static_site numParse 10 srcW []).writes ∧
    (build_static_site numParse 20 srcW
        (build_static_site numParse 10 srcW []).entries).trajs =
      (conformingTrajs srcW).map (compute_trajectory_metadata numParse) ∧
    (build_static_site numParse 20 srcW
        (build_static_site numParse 10 srcW []).entries).rebuilt = [] ∧
    (build_static_site numParse 20 srcW
        (build_static_site numParse 10 srcW []).entries).writes =
      [WriteOp.indexFile]) :=
  ⟨by decide, build_recomputes_index_and_is_idempotent numParse 10 20 srcW []
    (by decide)⟩

theorem mem_upsert_of_ne (es : List OutDirEntry) (n : String) (now : Int)
    (e : OutDirEntry) (he : e ∈ es) (hne : e.name ≠ n) :
    e ∈ upsertEntry es n now := by
  rw [upsertEntry]
  by_cases h : (lookupEntry es n).isSome
  · rw [if_pos h]
    refine List.mem_map.mpr ⟨e, he, ?_⟩
    rw [if_neg (by simp [hne])]
  · rw [if_neg h]
    exact List.mem_append_left _ he

theorem mem_entries_foldl (fromiso : String → Option ℚ) (now : Int) :
    ∀ (ts : List TrajectoryInput) (st : BuildState) (e : OutDirEntry),
    e ∈ st.entries → (∀ t ∈ ts, e.name ≠ t.id) →
    e ∈ (ts.foldl (processTraj fromiso now) st).entries := by
  intro ts
  induction ts with
  | nil => intro st e he _; simpa using he
  | cons u ts2 ih =>
    intro st e he hne
    rw [List.foldl_cons]
    refine ih (processTraj fromiso now st u) e ?_
      (fun t ht => hne t (by simp [ht]))
    rw [processTraj]
    cases hskip : shouldSkip st.entries u with
    | true => simpa using he
    | false =>
      simp only [hskip, Bool.false_eq_true, if_false]
      exact mem_upsert_of_ne st.entries u.id now e he (hne u (by simp))

theorem namePresent_upsert (es : List OutDirEntry) (n2 : String) (now : Int)
    (n : String) (h : ∃ x ∈ es, x.name = n) :
    ∃ x ∈ upsertEntry es n2 now, x.name = n := by
  obtain ⟨x, hx, hxn⟩ := h
  rw [upsertEntry]
  by_cases hs : (lookupEntry es n2).isSome
  · rw [if_pos hs]
    by_cases hxe : x.name = n2
    · refine ⟨⟨n2, true, some now⟩, List.mem_map.mpr ⟨x, hx, ?_⟩, ?_⟩
      · rw [if_pos (by simp [hxe])]
      · rw [← hxe, hxn]
    · refine ⟨x, List.mem_map.mpr ⟨x, hx, ?_⟩, hxn⟩
      rw [if_neg (by simp [hxe])]
  · rw [if_neg hs]
    exact ⟨x, List.mem_append_left _ hx, hxn⟩

theorem namePresent_foldl (fromiso : String → Option ℚ) (now : Int) :
    ∀ (ts : List TrajectoryInput) (st : BuildState) (n : String),
    (∃ x ∈ st.entries, x.name = n) →
    ∃ x ∈ (ts.foldl (processTraj fromiso now) st).entries, x.name = n := by
  intro ts
  induction ts with
  | nil => intro st n h; simpa using h
  | cons u ts2 ih =>
    intro st n h
    rw [List.foldl_cons]
    refine ih (processTraj fromiso now st u) n ?_
    rw [processTraj]
    cases hskip : shouldSkip st.entries u with
    | true => simpa using h
    | false =>
      simp only [hskip, Bool.false_eq_true, if_false]
      exact namePresent_upsert st.entries u.id now n h

/-- A non-directory entry of the output data directory. -/
def strayFile : OutDirEntry := ⟨"stray.txt", false, none⟩

/-- Counterexample to C5 as stated: a non-directory entry of the output data
directory whose name is not among the observed source trajectory IDs is left
in place (the deletion loop tests `is_dir()`), contradicting "every output
data-directory entry whose name is not among the currently observed source
trajectory IDs is deleted". -/
theorem orphanDeletion_counterexample :
    strayFile.name ∉ sourceIds ([] : List SourceEntry) ∧
    (build_static_site numParse 0 [] [strayFile]).entries = [strayFile] ∧
    (build_static_site numParse 0 [] [strayFile]).removed = [] := by decide

/-- C5 amended: after processing, every output data-directory entry that is
a directory and whose name is not among the observed source trajectory IDs
is deleted recursively, and this is the only deletion path: non-directory
entries and entries whose names match observed source IDs are never
deleted. -/
theorem orphanDeletion_correct (fromiso : String → Option ℚ) (now : Int)
    (src : List SourceEntry) (entries0 : List OutDirEntry)
    (e : OutDirEntry) (he : e ∈ entries0) :
    (e.isDir = true → e.name ∉ sourceIds src →
      (e.name ∈ (build_static_site fromiso now src entries0).removed ∧
       e ∉ (build_static_site fromiso now src entries0).entries)) ∧
    (e.isDir = false → e.name ∉ sourceIds src →
      e ∈ (build_static_site fromiso now src entries0).entries) ∧
    (e.name ∈ sourceIds src →
      (e.name ∉ (build_static_site fromiso now src entries0).removed ∧
       ∃ x ∈ (build_static_site fromiso now src entries0).entries,
         x.name = e.name)) := by
  have hent : (build_static_site fromiso now src entries0).entries =
      ((conformingTrajs src).foldl (processTraj fromiso now)
        ⟨entries0, [], [], [], [], []⟩).entries.filter
        (fun x => !isOrphan (sourceIds src) x) := rfl
  have hrem : (build_static_site fromiso now src entries0).removed =
      (((conformingTrajs src).foldl (processTraj fromiso now)
        ⟨entries0, [], [], [], [], []⟩).entries.filter
        (isOrphan (sourceIds src))).map (fun x => x.name) := rfl
  refine ⟨fun hd hni => ?_, fun hd hni => ?_, fun hm => ?_⟩
  · have hproc : e ∈ ((conformingTrajs src).foldl (processTraj fromiso now)
        ⟨entries0, [], [], [], [], []⟩).entries := by
      refine mem_entries_foldl fromiso now (conformingTrajs src)
        ⟨entries0, [], [], [], [], []⟩ e he ?_
      intro t ht hname
      exact hni (hname ▸ List.mem_map_of_mem (fun x => x.id) ht)
    have horph : isOrphan (sourceIds src) e = true := by
      simp [isOrphan, hd]
      exact hni
    constructor
    · rw [hrem]
      exact List.mem_map_of_mem _ (List.mem_filter.mpr ⟨hproc, horph⟩)
    · rw [hent]
      intro hmem
      have := (List.mem_filter.mp hmem).2
      rw [horph] at this
      simp at this
  · have hproc : e ∈ ((conformingTrajs src).foldl (processTraj fromiso now)
        ⟨entries0, [], [], [], [], []⟩).entries := by
      refine mem_entries_foldl fromiso now (conformingTrajs src)
        ⟨entries0, [], [], [], [], []⟩ e he ?_
      intro t ht hname
      exact hni (hname ▸ List.mem_map_of_mem (fun x => x.id) ht)
    rw [hent]
    refine List.mem_filter.mpr ⟨hproc, ?_⟩
    simp [isOrphan, hd]
  · constructor
    · rw [hrem]
      intro hn
      obtain ⟨x, hx, hxn⟩ := List.mem_map.mp hn
      have horph := (List.mem_filter.mp hx).2
      have hpair : x.isDir = true ∧ x.name ∉ sourceIds src := by
        simpa [isOrphan] using horph
      exact hpair.2 (hxn ▸ hm)
    · have hpres : ∃ x ∈ ((conformingTrajs src).foldl
          (processTraj fromiso now)
          ⟨entries0, [], [], [], [], []⟩).entries, x.name = e.name :=
        namePresent_foldl fromiso now (conformingTrajs src)
          ⟨entries0, [], [], [], [], []⟩ e.name ⟨e, he, rfl⟩
      obtain ⟨x, hx, hxn⟩ := hpres
      refine ⟨x, ?_, hxn⟩
      rw [hent]
      refine List.mem_filter.mpr ⟨hx, ?_⟩
      simp [isOrphan]
      exact Or.inr (by rw [hxn]; exact hm)

/-- Witness for C5: a 32-hex-named orphan output directory is removed after
one run over an empty source, while a stray non-directory entry survives and
a directory matching an observed source ID is preserved. -/
theorem orphanDeletion_correct_witness :
    (⟨hexId, true, some 0⟩ : OutDirEntry) ∈
      [(⟨hexId, true, some 0⟩ : OutDirEntry)] ∧
    (((⟨hexId, true, some 0⟩ : OutDirEntry).isDir = true →
      (⟨hexId, true, some 0⟩ : OutDirEntry).name ∉
        sourceIds ([] : List SourceEntry) →
      (hexId ∈ (build_static_site numParse 0 []
        [⟨hexId, true, some 0⟩]).removed ∧
       (⟨hexId, true, some 0⟩ : OutDirEntry) ∉
        (build_static_site numParse 0 [] [⟨hexId, true, some 0⟩]).entries)) ∧
    ((⟨hexId, true, some 0⟩ : OutDirEntry).isDir = false →
      (⟨hexId, true, some 0⟩ : OutDirEntry).name ∉
        sourceIds ([] : List SourceEntry) →
      (⟨hexId, true, some 0⟩ : OutDirEntry) ∈
        (build_static_site numParse 0 [] [⟨hexId, true, some 0⟩]).entries) ∧
    ((⟨hexId, true, some 0⟩ : OutDirEntry).name ∈
        sourceIds ([] : List SourceEntry) →
      (hexId ∉ (build_static_site numParse 0 []
        [⟨hexId, true, some 0⟩]).removed ∧
       ∃ x ∈ (build_static_site numParse 0 []
        [⟨hexId, true, some 0⟩]).entries, x.name = hexId))) :=
  ⟨by decide, orphanDeletion_correct numParse 0 [] [⟨hexId, true, some 0⟩]
    ⟨hexId, true, some 0⟩ (by decide)⟩

/-- A 32-character uppercase hexadecimal directory name. -/
def upperId : String := "ABCDEF0123456789ABCDEF0123456789"

/-- A source directory entry named with uppercase hexadecimal characters. -/
def upperEntry : SourceEntry := ⟨true, ⟨upperId, 0, none, none⟩⟩

/-- Counterexample to C9 as stated: the filter lowercases the name before
testing (`entry.name.lower()`), so a directory whose 32-character name is
uppercase hexadecimal — not a lowercase hexadecimal ID — is included in the
source trajectory set and in the index. -/
theorem idFilter_counterexample :
    isConforming upperEntry = true ∧
    isLowerHex32 upperId = false ∧
    sourceIds [upperEntry] = [upperId] ∧
    (build_static_site numParse 0 [upperEntry] []).trajs.map
      (fun m => m.id) = [upperId] := by decide

/-- C9 amended: a source entry is included in the source trajectory set (and
hence in the index and in orphan-deletion consideration) if and only if it
is a directory whose name has exactly 32 characters, all hexadecimal digits
after lowercasing; every non-conforming entry is silently ignored (the index
covers exactly the conforming entries). -/
theorem idFilter_correct (fromiso : String → Option ℚ) (now : Int)
    (entries0 : List OutDirEntry) (src : List SourceEntry)
    (e : SourceEntry) :
    (isConforming e = true ↔
      (e.isDir = true ∧ e.traj.id.data.length = 32 ∧
        ∀ c ∈ e.traj.id.data, Char.toLower c ∈ hexDigits)) ∧
    sourceIds src =
      ((sortSourceEntries src).filter isConforming).map
        (fun x => x.traj.id) ∧
    (build_static_site fromiso now src entries0).trajs =
      ((sortSourceEntries src).filter isConforming).map
        (fun x => compute_trajectory_metadata fromiso x.traj) := by
  refine ⟨?_, ?_, ?_⟩
  · rw [isConforming]
    simp [String.toLower, List.all_eq_true, and_assoc]
  · rw [sourceIds, conformingTrajs, List.map_map]
    rfl
  · have hb : (build_static_site fromiso now src entries0).trajs =
        ((conformingTrajs src).foldl (processTraj fromiso now)
          ⟨entries0, [], [], [], [], []⟩).trajs := rfl
    rw [hb, foldl_trajs, conformingTrajs, List.map_map]
    rfl

/-- A parsed base state carrying an agent id and model but no `stats`
object, so every intermediate object on the token-usage path is absent. -/
def baseNoStats : Json :=
  .obj [("agent", .obj [("id", .str "custom-title"),
    ("llm", .obj [("model", .str "gpt")])])]

/-- A trajectory whose base state is `baseNoStats`. -/
def trajNoStats : TrajectoryInput :=
  ⟨"traj1", 0, some ⟨0, .parsed baseNoStats⟩, none⟩

/-- Some intermediate object on the path
`stats.usage_to_metrics.agent.accumulated_token_usage` is absent. -/
def tokenPathBroken (j : Json) : Prop :=
  j.objGet "stats" = none ∨
  (∃ s, j.objGet "stats" = some s ∧
    (s.objGet "usage_to_metrics" = none ∨
      (∃ u, s.objGet "usage_to_metrics" = some u ∧
        (u.objGet "agent" = none ∨
          (∃ a, u.objGet "agent" = some a ∧
            a.objGet "accumulated_token_usage" = none)))))

/-- Counterexample to C6 as stated: for a base state whose token-usage path
is broken (no `stats` object) but whose `agent` object is present, the title
and model do not fall back to their defaults — title is `agent.id`, not the
trajectory ID, and model is `agent.llm.model`, not absent — even though all
four token counters do default to 0. -/
theorem baseStateDefaults_counterexample :
    tokenPathBroken baseNoStats ∧
    (compute_trajectory_metadata numParse trajNoStats).title =
      Json.str "custom-title" ∧
    (compute_trajectory_metadata numParse trajNoStats).title ≠
      Json.str trajNoStats.id ∧
    (compute_trajectory_metadata numParse trajNoStats).model =
      Json.str "gpt" ∧
    (compute_trajectory_metadata numParse trajNoStats).model ≠ Json.null ∧
    (compute_trajectory_metadata numParse trajNoStats).promptTokens = 0 ∧
    (compute_trajectory_metadata numParse trajNoStats).completionTokens = 0 ∧
    (compute_trajectory_metadata numParse trajNoStats).reasoningTokens = 0 ∧
    (compute_trajectory_metadata numParse trajNoStats).cacheReadTokens = 0 := by
  refine ⟨Or.inl rfl, rfl, ?_, rfl, ?_, rfl, rfl, rfl, rfl⟩
  · intro h
    have : "custom-title" = trajNoStats.id := by
      have h2 : Json.str "custom-title" = Json.str trajNoStats.id := by
        rw [← h]
        rfl
      injection h2
    simp [trajNoStats] at this
  · intro h
    have h2 : Json.str "gpt" = Json.null := by rw [← h]; rfl
    cases h2

theorem getD_of_objGet_none (j : Json) (k : String) (d : Json)
    (h : j.objGet k = none) : j.getD k d = d := by
  rw [Json.getD, h]
  rfl

theorem getD_of_objGet_some (j : Json) (k : String) (d v : Json)
    (h : j.objGet k = some v) : j.getD k d = v := by
  rw [Json.getD, h]
  rfl

theorem tokenPathBroken_usage (j : Json) (h : tokenPathBroken j) :
    tokenUsageOf j = Json.obj [] := by
  have hobj : ∀ k : String, (Json.obj []).getD k (Json.obj []) =
      Json.obj [] := fun k => rfl
  rw [tokenUsageOf]
  rcases h with h | ⟨s, hs, h | ⟨u, hu, h | ⟨a, ha, h⟩⟩⟩
  · rw [getD_of_objGet_none j _ _ h, hobj, hobj, hobj]
  · rw [getD_of_objGet_some j _ _ s hs, getD_of_objGet_none s _ _ h,
      hobj, hobj]
  · rw [getD_of_objGet_some j _ _ s hs, getD_of_objGet_some s _ _ u hu,
      getD_of_objGet_none u _ _ h, hobj]
  · rw [getD_of_objGet_some j _ _ s hs, getD_of_objGet_some s _ _ u hu,
      getD_of_objGet_some u _ _ a ha, getD_of_objGet_none a _ _ h]

/-- C6 amended: a missing or unparsable base-state file is non-fatal and
defaults every dependent field — all four token counters 0, title the
trajectory ID, model absent; independently, when any intermediate object on
the path `stats.usage_to_metrics.agent.accumulated_token_usage` is absent,
the four token counters default to 0 (title and model are resolved from the
`agent` object, not defaulted). -/
theorem baseStateDefaults_correct (fromiso : String → Option ℚ)
    (t : TrajectoryInput) :
    (t.base = none →
      ((compute_trajectory_metadata fromiso t).title = Json.str t.id ∧
       (compute_trajectory_metadata fromiso t).model = Json.null ∧
       (compute_trajectory_metadata fromiso t).promptTokens = 0 ∧
       (compute_trajectory_metadata fromiso t).completionTokens = 0 ∧
       (compute_trajectory_metadata fromiso t).reasoningTokens = 0 ∧
       (compute_trajectory_metadata fromiso t).cacheReadTokens = 0)) ∧
    (∀ bf, t.base = some bf → bf.content = BaseContent.unparsable →
      ((compute_trajectory_metadata fromiso t).title = Json.str t.id ∧
       (compute_trajectory_metadata fromiso t).model = Json.null ∧
       (compute_trajectory_metadata fromiso t).promptTokens = 0 ∧
       (compute_trajectory_metadata fromiso t).completionTokens = 0 ∧
       (compute_trajectory_metadata fromiso t).reasoningTokens = 0 ∧
       (compute_trajectory_metadata fromiso t).cacheReadTokens = 0)) ∧
    (∀ bf j, t.base = some bf → bf.content = BaseContent.parsed j →
      tokenPathBroken j →
      ((compute_trajectory_metadata fromiso t).promptTokens = 0 ∧
       (compute_trajectory_metadata fromiso t).completionTokens = 0 ∧
       (compute_trajectory_metadata fromiso t).reasoningTokens = 0 ∧
       (compute_trajectory_metadata fromiso t).cacheReadTokens = 0)) := by
  refine ⟨fun h => ?_, fun bf hbf hc => ?_, fun bf j hbf hc hbroken => ?_⟩
  · simp [compute_trajectory_metadata, readBaseState, h, defaultBaseFields]
  · simp [compute_trajectory_metadata, readBaseState, hbf, hc,
      defaultBaseFields]
  · have husage := tokenPathBroken_usage j hbroken
    simp [compute_trajectory_metadata, readBaseState, hbf, hc,
      readBaseFields, husage, Json.getD, Json.objGet, Json.asInt,
      defaultBaseFields]

/-- Witness for C6: the amended theorem applied at the concrete stats-less
base state, with its hypotheses discharged there. -/
theorem baseStateDefaults_correct_witness :
    trajNoStats.base = some ⟨0, BaseContent.parsed baseNoStats⟩ ∧
    tokenPathBroken baseNoStats ∧
    ((compute_trajectory_metadata numParse trajNoStats).promptTokens = 0 ∧
     (compute_trajectory_metadata numParse trajNoStats).completionTokens = 0 ∧
     (compute_trajectory_metadata numParse trajNoStats).reasoningTokens = 0 ∧
     (compute_trajectory_metadata numParse trajNoStats).cacheReadTokens = 0) :=
  ⟨rfl, Or.inl rfl,
    (baseStateDefaults_correct numParse trajNoStats).2.2
      ⟨0, BaseContent.parsed baseNoStats⟩ baseNoStats rfl rfl (Or.inl rfl)⟩
